import Mathlib

/-!
Shallow embedding of parts of the simsopt coil-optimization code:
`simsopt/field/coil.py`, `simsopt/objectives/fluxobjective.py` and
`simsopt/geo/multifilament.py`.  Machine floating-point scalars are modelled
by the rationals; transcendental value producers (sin, cos, the Euclidean
norm, the constant 2*pi) enter the verified claims only as abstract functions
and are abstracted as explicit parameters, so every definition stays
computable and the algebraic structure of the source is kept exactly.
-/

namespace Simsopt

/-- Scalar-valued Derivative map over current nodes, keyed by node identity
(a natural-number id).  Modelled from the spec: the class `Derivative` of
`simsopt/_core/derivative.py` is not among the analyzed sources; per the
spec, accumulating two Derivative maps sums entries key-wise, inserting
missing keys with zero-initialized entries, so a map is modelled as a total
function defaulting to zero. -/
abbrev DerivC := Nat → ℚ

/-- Derivative map with one entry, `Derivative({self: v})` in the source. -/
def DerivC.single (i : Nat) (v : ℚ) : DerivC := fun j => if j = i then v else 0

/-- Key-wise sum of two Derivative maps (the `+` of `Derivative`).
Modelled from the spec: missing keys are inserted as zero. -/
def DerivC.add (d1 d2 : DerivC) : DerivC := fun j => d1 j + d2 j

/-- Scalar multiple of a Derivative map (the `scale * derivative` of
`Derivative`).  Modelled from the spec: entry-wise scaling. -/
def DerivC.smul (k : ℚ) (d : DerivC) : DerivC := fun j => k * d j

/-- Current nodes of `simsopt/field/coil.py`: a `Current` leaf (one scalar
dof, tagged with a node identity), a `ScaledCurrent`, and a `CurrentSum`. -/
inductive CurrentNode where
  | current : Nat → ℚ → CurrentNode
  | scaled : CurrentNode → ℚ → CurrentNode
  | sum : CurrentNode → CurrentNode → CurrentNode
deriving DecidableEq

/-- Value of a current node (`get_value`).  The `ScaledCurrent` and
`CurrentSum` cases follow `coil.py` lines 99-100 and 117-118.  The leaf case
is the native `sopp.Current.get_value`; Modelled from the spec: a `Current`
node owns exactly one scalar dof whose value is the current. -/
def CurrentNode.getValue : CurrentNode → ℚ
  | .current _ v => v
  | .scaled b k => k * b.getValue
  | .sum a b => a.getValue + b.getValue

/-- Vector-Jacobian product of a current node (`vjp`), following `coil.py`:
`Current.vjp(v) = Derivative({self: v})` (line 80-81),
`ScaledCurrent.vjp(v) = scale * base.vjp(v)` (line 96-97),
`CurrentSum.vjp(v) = a.vjp(v) + b.vjp(v)` (line 114-115). -/
def CurrentNode.vjp : CurrentNode → ℚ → DerivC
  | .current i _, v => DerivC.single i v
  | .scaled b k, v => DerivC.smul k (b.vjp v)
  | .sum a b, v => DerivC.add (a.vjp v) (b.vjp v)

/-- `CurrentBase.__mul__` (`coil.py` line 43-45): returns a new
`ScaledCurrent` node. -/
def CurrentBase.mul (self : CurrentNode) (k : ℚ) : CurrentNode :=
  CurrentNode.scaled self k

/-- `CurrentBase.__rmul__` (`coil.py` line 47-49). -/
def CurrentBase.rmul (k : ℚ) (self : CurrentNode) : CurrentNode :=
  CurrentNode.scaled self k

/-- `CurrentBase.__neg__` (`coil.py` line 51-52): `ScaledCurrent(self, -1.)`. -/
def CurrentBase.neg (self : CurrentNode) : CurrentNode :=
  CurrentNode.scaled self (-1)

/-- `CurrentBase.__add__` (`coil.py` line 54-55): `CurrentSum(self, other)`. -/
def CurrentBase.add (self other : CurrentNode) : CurrentNode :=
  CurrentNode.sum self other

/-- `CurrentBase.__sub__` (`coil.py` line 57-58): `CurrentSum(self, -other)`. -/
def CurrentBase.sub (self other : CurrentNode) : CurrentNode :=
  CurrentNode.sum self (CurrentBase.neg other)

/-- `CurrentBase.__radd__` (`coil.py` line 61-65): with a numeric left
operand equal to zero it returns `self` unchanged; with a nonzero numeric
left operand the source builds `CurrentSum(self, other)` whose second
operand is a bare number.  Modelled from the spec: `CurrentSum` depends on
two Current-typed nodes, so the numeric-operand result lies outside the data
model and is represented as an error. -/
def CurrentBase.radd (self : CurrentNode) (other : ℚ) : Except Unit CurrentNode :=
  if other = 0 then Except.ok self else Except.error ()

/-- Python value appearing as the accumulator of `sum()`: either a bare
number (the initial `0`) or a current node. -/
inductive PyCur where
  | num : ℚ → PyCur
  | node : CurrentNode → PyCur
deriving DecidableEq

/-- One step `acc + c` of Python `sum()` over current nodes: a numeric
accumulator dispatches to `c.__radd__(acc)`, a node accumulator dispatches
to `acc.__add__(c)` which builds `CurrentSum(acc, c)`. -/
def pyAdd : PyCur → CurrentNode → Except Unit PyCur
  | PyCur.num q, c => (CurrentBase.radd c q).map PyCur.node
  | PyCur.node a, c => Except.ok (PyCur.node (CurrentNode.sum a c))

/-- Loop of Python `sum()`: fold `pyAdd` over the collection. -/
def pySumGo : PyCur → List CurrentNode → Except Unit PyCur
  | acc, [] => Except.ok acc
  | acc, c :: cs =>
    match pyAdd acc c with
    | Except.ok acc2 => pySumGo acc2 cs
    | Except.error e => Except.error e

/-- Python `sum()` over a collection of current nodes, starting from the
default numeric start value `0`. -/
def pySum (xs : List CurrentNode) : Except Unit PyCur :=
  pySumGo (PyCur.num 0) xs

/-- Flip list of the symmetry loops (`coil.py` lines 128 and 147):
`[False, True]` if `stellsym` else `[False]`. -/
def flipList (stellsym : Bool) : List Bool :=
  if stellsym then [false, true] else [false]

/-- Curve nodes: an abstract base curve (tagged with a node identity) and the
`RotatedCurve(curve, angle, flip)` wrapper applied by the symmetry
expansion.  `RotatedCurve` itself lives in `simsopt/geo/curve.py`, outside
the analyzed sources; the expansion only constructs it, so it is modelled as
an abstract wrapper holding its constructor arguments. -/
inductive CurveNode where
  | base : Nat → CurveNode
  | rotatedCurve : CurveNode → ℚ → Bool → CurveNode
deriving DecidableEq

/-- `apply_symmetries_to_curves` (`coil.py` lines 121-138): for each of the
`nfp` rotations and each flip, append the base curve itself in the `k = 0`,
no-flip case and `RotatedCurve(base, 2*pi*k/nfp, flip)` otherwise.  The real
constant `2*pi` is abstracted as the parameter `twoPi`. -/
def apply_symmetries_to_curves (twoPi : ℚ) (base_curves : List CurveNode)
    (nfp : ℕ) (stellsym : Bool) : List CurveNode :=
  (List.range nfp).flatMap fun k =>
    (flipList stellsym).flatMap fun flip =>
      base_curves.map fun c =>
        if k = 0 ∧ flip = false then c
        else CurveNode.rotatedCurve c (twoPi * k / nfp) flip

/-- `apply_symmetries_to_currents` (`coil.py` lines 141-154): for each of
the `nfp` rotations and each flip, append `ScaledCurrent(base, -1.)` when
flipped and the base current itself otherwise. -/
def apply_symmetries_to_currents (base_currents : List CurrentNode)
    (nfp : ℕ) (stellsym : Bool) : List CurrentNode :=
  (List.range nfp).flatMap fun _k =>
    (flipList stellsym).flatMap fun flip =>
      base_currents.map fun c =>
        if flip then CurrentNode.scaled c (-1) else c

/-- A `Coil` pairs a curve and a current (`coil.py` lines 10-21). -/
structure Coil where
  curve : CurveNode
  current : CurrentNode
deriving DecidableEq

/-- Failure mode of `coils_via_symmetries` when the curve and current lists
have different lengths; the source guards with `assert len(curves) ==
len(currents)` (`coil.py` line 164), the failure the spec names
`DimensionMismatch`. -/
inductive SimsoptError where
  | DimensionMismatch
deriving DecidableEq

/-- `coils_via_symmetries` (`coil.py` lines 157-168): check the lengths
agree, expand curves and currents by the symmetries, and zip them into
`Coil` objects. -/
def coils_via_symmetries (twoPi : ℚ) (curves : List CurveNode)
    (currents : List CurrentNode) (nfp : ℕ) (stellsym : Bool) :
    Except SimsoptError (List Coil) :=
  if curves.length = currents.length then
    Except.ok (List.zipWith Coil.mk
      (apply_symmetries_to_curves twoPi curves nfp stellsym)
      (apply_symmetries_to_currents currents nfp stellsym))
  else
    Except.error SimsoptError.DimensionMismatch

lemma length_apply_symmetries_to_curves (twoPi : ℚ) (bc : List CurveNode)
    (nfp : ℕ) (ss : Bool) :
    (apply_symmetries_to_curves twoPi bc nfp ss).length =
      nfp * ((flipList ss).length * bc.length) := by
  simp [apply_symmetries_to_curves, List.length_flatMap, Function.comp_def,
    List.map_const', mul_comm]

lemma length_apply_symmetries_to_currents (bcur : List CurrentNode)
    (nfp : ℕ) (ss : Bool) :
    (apply_symmetries_to_currents bcur nfp ss).length =
      nfp * ((flipList ss).length * bcur.length) := by
  simp [apply_symmetries_to_currents, List.length_flatMap, Function.comp_def,
    List.map_const', mul_comm]

/-- C2: for every list of `n` curves, every list of `n` currents, every
`nfp ≥ 1` and every boolean `stellsym`, `coils_via_symmetries` returns a
list of exactly `n * nfp * (1 + int(stellsym))` Coil objects. -/
theorem coils_via_symmetries_count (twoPi : ℚ) (curves : List CurveNode)
    (currents : List CurrentNode) (nfp : ℕ) (stellsym : Bool)
    (hlen : curves.length = currents.length) (hnfp : 1 ≤ nfp) :
    ∃ coils : List Coil,
      coils_via_symmetries twoPi curves currents nfp stellsym = Except.ok coils ∧
      coils.length = curves.length * nfp * (1 + if stellsym then 1 else 0) := by
  refine ⟨List.zipWith Coil.mk
      (apply_symmetries_to_curves twoPi curves nfp stellsym)
      (apply_symmetries_to_currents currents nfp stellsym), ?_, ?_⟩
  · simp [coils_via_symmetries, hlen]
  rw [List.length_zipWith, length_apply_symmetries_to_curves,
    length_apply_symmetries_to_currents, ← hlen]
  cases stellsym <;> simp [flipList] <;> ring

/-- Witness for C2 at a concrete input: one base curve and one base current,
`nfp = 2`, `stellsym = true` give `1 * 2 * 2` coils. -/
theorem coils_via_symmetries_count_witness :
    ∃ coils : List Coil,
      coils_via_symmetries 0 [CurveNode.base 0] [CurrentNode.current 0 1] 2 true
        = Except.ok coils ∧
      coils.length = 1 * 2 * (1 + if true then 1 else 0) :=
  coils_via_symmetries_count 0 [CurveNode.base 0] [CurrentNode.current 0 1] 2 true
    (by decide) (by decide)

/-- C3: for every pair of input lists whose lengths differ,
`coils_via_symmetries` fails with `DimensionMismatch` and does not return a
coil list. -/
theorem coils_via_symmetries_mismatch (twoPi : ℚ) (curves : List CurveNode)
    (currents : List CurrentNode) (nfp : ℕ) (stellsym : Bool)
    (h : curves.length ≠ currents.length) :
    coils_via_symmetries twoPi curves currents nfp stellsym =
      Except.error SimsoptError.DimensionMismatch := by
  simp [coils_via_symmetries, h]

/-- Witness for C3 at a concrete input: one curve against zero currents. -/
theorem coils_via_symmetries_mismatch_witness :
    coils_via_symmetries 0 [CurveNode.base 0] [] 1 false =
      Except.error SimsoptError.DimensionMismatch :=
  coils_via_symmetries_mismatch 0 [CurveNode.base 0] [] 1 false (by decide)

lemma CurrentNode.vjp_mul_arg (b : CurrentNode) (k v : ℚ) :
    b.vjp (k * v) = DerivC.smul k (b.vjp v) := by
  induction b with
  | current i val =>
    funext j
    simp only [vjp, DerivC.single, DerivC.smul]
    split <;> simp
  | scaled b' s ih =>
    funext j
    simp only [vjp, DerivC.smul]
    rw [congrFun ih j]
    simp only [DerivC.smul]
    ring
  | sum a b iha ihb =>
    funext j
    simp only [vjp, DerivC.add, DerivC.smul]
    rw [congrFun iha j, congrFun ihb j]
    simp only [DerivC.smul]
    ring

/-- C4: `Current.vjp(v)` is the Derivative map `{self: v}`;
`ScaledCurrent(base, k).vjp(v)` pushes `k * v` to the base (in particular,
when the base is a `Current` leaf it is the map assigning `k * v` to that
entry); `CurrentSum(a, b).vjp(v)` is the key-wise sum of `a.vjp(v)` and
`b.vjp(v)`. -/
theorem current_vjp_spec :
    (∀ (i : Nat) (val v : ℚ),
      (CurrentNode.current i val).vjp v = DerivC.single i v) ∧
    (∀ (b : CurrentNode) (k v : ℚ),
      (CurrentNode.scaled b k).vjp v = b.vjp (k * v)) ∧
    (∀ (i : Nat) (val k v : ℚ),
      (CurrentNode.scaled (CurrentNode.current i val) k).vjp v =
        DerivC.single i (k * v)) ∧
    (∀ (a b : CurrentNode) (v : ℚ),
      (CurrentNode.sum a b).vjp v = DerivC.add (a.vjp v) (b.vjp v)) := by
  refine ⟨fun i val v => rfl, fun b k v => ?_, fun i val k v => ?_, fun a b v => rfl⟩
  · rw [CurrentNode.vjp_mul_arg]; rfl
  · funext j
    simp only [CurrentNode.vjp, DerivC.smul, DerivC.single]
    split <;> simp

/-- C5: with `stellsym = true` the current expansion consists, for each of
the `nfp` rotations, of the base currents themselves (non-flipped copies,
equal value) followed by `ScaledCurrent(base, -1)` wrappers (flipped
copies), and the value of each flipped copy is the negation of the value of
its base current, for every value of the base. -/
theorem apply_symmetries_to_currents_flip_values :
    (∀ (base : List CurrentNode) (nfp : ℕ),
      apply_symmetries_to_currents base nfp true =
        (List.range nfp).flatMap (fun _ =>
          base ++ base.map (fun c => CurrentNode.scaled c (-1)))) ∧
    (∀ c : CurrentNode,
      (CurrentNode.scaled c (-1)).getValue = -(c.getValue)) := by
  constructor
  · intro base nfp
    simp [apply_symmetries_to_currents, flipList]
  · intro c
    simp [CurrentNode.getValue]

/-- C6: for `nfp ≥ 1` the first `n` entries of both symmetry expansions are
exactly the base objects, with no wrapper applied (the `k = 0`, no-flip
case reuses the originals). -/
theorem apply_symmetries_base_first (twoPi : ℚ) (base_curves : List CurveNode)
    (base_currents : List CurrentNode) (nfp : ℕ) (stellsym : Bool)
    (hnfp : 1 ≤ nfp) :
    (apply_symmetries_to_curves twoPi base_curves nfp stellsym).take
        base_curves.length = base_curves ∧
    (apply_symmetries_to_currents base_currents nfp stellsym).take
        base_currents.length = base_currents := by
  obtain ⟨m, rfl⟩ : ∃ m, nfp = m + 1 := ⟨nfp - 1, by omega⟩
  constructor
  · rw [apply_symmetries_to_curves, List.range_succ_eq_map,
      List.flatMap_cons]
    cases stellsym <;>
      simp [flipList, List.append_assoc, List.take_left]
  · rw [apply_symmetries_to_currents, List.range_succ_eq_map,
      List.flatMap_cons]
    cases stellsym <;>
      simp [flipList, List.append_assoc, List.take_left]

/-- Witness for C6 at a concrete input: one base curve and current with
`nfp = 1`. -/
theorem apply_symmetries_base_first_witness :
    (apply_symmetries_to_curves 0 [CurveNode.base 3] 1 false).take
        ([CurveNode.base 3] : List CurveNode).length = [CurveNode.base 3] ∧
    (apply_symmetries_to_currents [CurrentNode.current 0 7] 1 false).take
        ([CurrentNode.current 0 7] : List CurrentNode).length =
      [CurrentNode.current 0 7] :=
  apply_symmetries_base_first 0 [CurveNode.base 3] [CurrentNode.current 0 7] 1 false
    (by decide)

/-- C7: `(a + b).get_value() = va + vb` and `(-a).get_value() = -va`; the
operators `+`, `-`, unary minus and scalar `*` return new derived nodes
(`CurrentSum` and `ScaledCurrent` wrappers holding the operand nodes
unchanged), so the operands are not mutated and remain reusable. -/
theorem current_algebra_ops (a b : CurrentNode) (k : ℚ) :
    (CurrentBase.add a b).getValue = a.getValue + b.getValue ∧
    (CurrentBase.neg a).getValue = -(a.getValue) ∧
    CurrentBase.add a b = CurrentNode.sum a b ∧
    CurrentBase.neg a = CurrentNode.scaled a (-1) ∧
    CurrentBase.sub a b = CurrentNode.sum a (CurrentNode.scaled b (-1)) ∧
    CurrentBase.mul a k = CurrentNode.scaled a k ∧
    CurrentBase.rmul k a = CurrentNode.scaled a k := by
  refine ⟨?_, ?_, rfl, rfl, rfl, rfl, rfl⟩
  · rfl
  · simp [CurrentBase.neg, CurrentNode.getValue]

lemma pySumGo_node (a : CurrentNode) (cs : List CurrentNode) :
    pySumGo (PyCur.node a) cs =
      Except.ok (PyCur.node (cs.foldl CurrentNode.sum a)) := by
  induction cs generalizing a with
  | nil => rfl
  | cons c cs ih => simpa [pySumGo, pyAdd] using ih (CurrentNode.sum a c)

/-- C8: right-addition of the numeric zero returns the node itself
unchanged, so Python `sum()` over a non-empty collection of current nodes
behaves as repeated pairwise addition starting from the first node. -/
theorem current_radd_zero_sum :
    (∀ c : CurrentNode, CurrentBase.radd c 0 = Except.ok c) ∧
    (∀ (c : CurrentNode) (cs : List CurrentNode),
      pySum (c :: cs) =
        Except.ok (PyCur.node (cs.foldl CurrentNode.sum c))) := by
  constructor
  · intro c; rfl
  · intro c cs
    have h0 : pyAdd (PyCur.num 0) c = Except.ok (PyCur.node c) := rfl
    simp [pySum, pySumGo, h0, pySumGo_node]

/-- Angle profile `jaxrotation_pure(dofs, points, order)` of
`multifilament.py` lines 181-187, per quadrature point `i`:
`dofs[0] + sum over j = 1..order of dofs[2j-1]*sin(2*pi*j*p) +
dofs[2j]*cos(2*pi*j*p)`.  The summation index is shifted by one
(`j = j0 + 1`), so the dof indices `2j-1` and `2j` read `2*j0+1` and
`2*j0+2`.  Arrays are modelled as index functions; `sin`, `cos` and `2*pi`
are abstracted as `sinf`, `cosf` and `twoPi`. -/
def jaxrotation_pure (sinf cosf : ℚ → ℚ) (twoPi : ℚ) (dofs : ℕ → ℚ)
    (points : ℕ → ℚ) (order : ℕ) : ℕ → ℚ :=
  fun i => dofs 0 + Finset.sum (Finset.range order) (fun j =>
    dofs (2 * j + 1) * sinf (twoPi * ((j : ℚ) + 1) * points i) +
    dofs (2 * j + 2) * cosf (twoPi * ((j : ℚ) + 1) * points i))

/-- Derivative profile `jaxrotationdash_pure(dofs, points, order)` of
`multifilament.py` lines 190-195, with the same index shift:
`sum over j = 1..order of dofs[2j-1]*2*pi*j*cos(2*pi*j*p) -
dofs[2j]*2*pi*j*sin(2*pi*j*p)`. -/
def jaxrotationdash_pure (sinf cosf : ℚ → ℚ) (twoPi : ℚ) (dofs : ℕ → ℚ)
    (points : ℕ → ℚ) (order : ℕ) : ℕ → ℚ :=
  fun i => Finset.sum (Finset.range order) (fun j =>
    dofs (2 * j + 1) * (twoPi * ((j : ℚ) + 1)) *
      cosf (twoPi * ((j : ℚ) + 1) * points i) -
    dofs (2 * j + 2) * (twoPi * ((j : ℚ) + 1)) *
      sinf (twoPi * ((j : ℚ) + 1) * points i))

/-- Jacobian matrix `rotation_dcoeff(points, order)` of `multifilament.py`
lines 198-204, of shape `(len(points), 2*order+1)`: column `0` is `1`,
column `2j-1` is `sin(2*pi*j*p)` and column `2j` is `cos(2*pi*j*p)` for
`j = 1..order`; entries outside the assigned columns keep the `np.zeros`
fill. -/
def rotation_dcoeff (sinf cosf : ℚ → ℚ) (twoPi : ℚ) (points : ℕ → ℚ)
    (order : ℕ) : ℕ → ℕ → ℚ :=
  fun i c =>
    if c = 0 then 1
    else if c ≤ 2 * order then
      if c % 2 = 1 then sinf (twoPi * (((c + 1) / 2 : ℕ) : ℚ) * points i)
      else cosf (twoPi * ((c / 2 : ℕ) : ℚ) * points i)
    else 0

/-- Jacobian matrix `rotationdash_dcoeff(points, order)` of
`multifilament.py` lines 207-212: column `2j-1` is `2*pi*j*cos(2*pi*j*p)`,
column `2j` is `-2*pi*j*sin(2*pi*j*p)`, and column `0` keeps the `np.zeros`
fill. -/
def rotationdash_dcoeff (sinf cosf : ℚ → ℚ) (twoPi : ℚ) (points : ℕ → ℚ)
    (order : ℕ) : ℕ → ℕ → ℚ :=
  fun i c =>
    if 1 ≤ c ∧ c ≤ 2 * order then
      if c % 2 = 1 then
        twoPi * (((c + 1) / 2 : ℕ) : ℚ) *
          cosf (twoPi * (((c + 1) / 2 : ℕ) : ℚ) * points i)
      else
        -(twoPi * ((c / 2 : ℕ) : ℚ) *
          sinf (twoPi * ((c / 2 : ℕ) : ℚ) * points i))
    else 0

/-- Matrix-vector product of a `(rows, width)` matrix with a dof vector. -/
def matVec (width : ℕ) (jac : ℕ → ℕ → ℚ) (x : ℕ → ℚ) : ℕ → ℚ :=
  fun i => Finset.sum (Finset.range width) (fun c => jac i c * x c)

/-- Model of the `FilamentRotation` node of `multifilament.py` lines
85-106: a Fourier order, a dof vector `full_x` of length `2*order+1`, and
the constructor quadrature points from which the matrices `jac` and
`jacdash` are precomputed. -/
structure FilamentRotation where
  order : ℕ
  dofs : ℕ → ℚ
  quadpoints : ℕ → ℚ

/-- `FilamentRotation.alpha(quadpoints)`: evaluates `jaxrotation_pure` on
the current dofs and the given quadrature points. -/
def FilamentRotation.alpha (f : FilamentRotation) (sinf cosf : ℚ → ℚ)
    (twoPi : ℚ) (qp : ℕ → ℚ) : ℕ → ℚ :=
  jaxrotation_pure sinf cosf twoPi f.dofs qp f.order

/-- `FilamentRotation.alphadash(quadpoints)`. -/
def FilamentRotation.alphadash (f : FilamentRotation) (sinf cosf : ℚ → ℚ)
    (twoPi : ℚ) (qp : ℕ → ℚ) : ℕ → ℚ :=
  jaxrotationdash_pure sinf cosf twoPi f.dofs qp f.order

/-- Precomputed matrix `self.jac` used by `dalpha_by_dcoeff_vjp`
(`multifilament.py` lines 91 and 102-103). -/
def FilamentRotation.jacMat (f : FilamentRotation) (sinf cosf : ℚ → ℚ)
    (twoPi : ℚ) : ℕ → ℕ → ℚ :=
  rotation_dcoeff sinf cosf twoPi f.quadpoints f.order

/-- Precomputed matrix `self.jacdash` used by `dalphadash_by_dcoeff_vjp`
(`multifilament.py` lines 92 and 105-106). -/
def FilamentRotation.jacdashMat (f : FilamentRotation) (sinf cosf : ℚ → ℚ)
    (twoPi : ℚ) : ℕ → ℕ → ℚ :=
  rotationdash_dcoeff sinf cosf twoPi f.quadpoints f.order

lemma sum_range_two_mul_add_one (g : ℕ → ℚ) (n : ℕ) :
    Finset.sum (Finset.range (2 * n + 1)) g =
      g 0 + Finset.sum (Finset.range n) (fun j => g (2 * j + 1) + g (2 * j + 2)) := by
  induction n with
  | zero => simp
  | succ m ih =>
    have h : 2 * (m + 1) + 1 = (2 * m + 1) + 1 + 1 := by ring
    have e1 : (2 * m + 1) + 1 = 2 * m + 2 := rfl
    rw [h, Finset.sum_range_succ, Finset.sum_range_succ, ih,
      Finset.sum_range_succ, e1]
    ring

lemma jaxrotation_linear (sinf cosf : ℚ → ℚ) (twoPi : ℚ) (dofs : ℕ → ℚ)
    (points : ℕ → ℚ) (order : ℕ) (i : ℕ) :
    jaxrotation_pure sinf cosf twoPi dofs points order i =
      matVec (2 * order + 1) (rotation_dcoeff sinf cosf twoPi points order)
        dofs i := by
  rw [matVec, sum_range_two_mul_add_one]
  rw [jaxrotation_pure]
  have h0 : rotation_dcoeff sinf cosf twoPi points order i 0 = 1 := rfl
  rw [h0, one_mul]
  congr 1
  refine Finset.sum_congr rfl (fun j hj => ?_)
  have hj' : j < order := Finset.mem_range.mp hj
  have hodd : rotation_dcoeff sinf cosf twoPi points order i (2 * j + 1) =
      sinf (twoPi * ((j : ℚ) + 1) * points i) := by
    have h1 : ¬(2 * j + 1 = 0) := by omega
    have h2 : 2 * j + 1 ≤ 2 * order := by omega
    have h3 : (2 * j + 1) % 2 = 1 := by omega
    have h4 : (2 * j + 1 + 1) / 2 = j + 1 := by omega
    simp [rotation_dcoeff, h1, h2, h3, h4]
  have heven : rotation_dcoeff sinf cosf twoPi points order i (2 * j + 2) =
      cosf (twoPi * ((j : ℚ) + 1) * points i) := by
    have h1 : ¬(2 * j + 2 = 0) := by omega
    have h2 : 2 * j + 2 ≤ 2 * order := by omega
    have h3 : ¬((2 * j + 2) % 2 = 1) := by omega
    have h4 : (2 * j + 2) / 2 = j + 1 := by omega
    simp [rotation_dcoeff, h1, h2, h3, h4]
  rw [hodd, heven]
  ring

lemma jaxrotationdash_linear (sinf cosf : ℚ → ℚ) (twoPi : ℚ) (dofs : ℕ → ℚ)
    (points : ℕ → ℚ) (order : ℕ) (i : ℕ) :
    jaxrotationdash_pure sinf cosf twoPi dofs points order i =
      matVec (2 * order + 1)
        (rotationdash_dcoeff sinf cosf twoPi points order) dofs i := by
  rw [matVec, sum_range_two_mul_add_one]
  rw [jaxrotationdash_pure]
  have h0 : rotationdash_dcoeff sinf cosf twoPi points order i 0 = 0 := rfl
  rw [h0, zero_mul, zero_add]
  refine Finset.sum_congr rfl (fun j hj => ?_)
  have hj' : j < order := Finset.mem_range.mp hj
  have hodd : rotationdash_dcoeff sinf cosf twoPi points order i (2 * j + 1) =
      twoPi * ((j : ℚ) + 1) * cosf (twoPi * ((j : ℚ) + 1) * points i) := by
    have h2 : 1 ≤ 2 * j + 1 ∧ 2 * j + 1 ≤ 2 * order := by omega
    have h3 : (2 * j + 1) % 2 = 1 := by omega
    have h4 : (2 * j + 1 + 1) / 2 = j + 1 := by omega
    simp [rotationdash_dcoeff, h2, h3, h4]
  have heven : rotationdash_dcoeff sinf cosf twoPi points order i (2 * j + 2) =
      -(twoPi * ((j : ℚ) + 1) * sinf (twoPi * ((j : ℚ) + 1) * points i)) := by
    have h2 : 1 ≤ 2 * j + 2 ∧ 2 * j + 2 ≤ 2 * order := by omega
    have h3 : ¬((2 * j + 2) % 2 = 1) := by omega
    have h4 : (2 * j + 2) / 2 = j + 1 := by omega
    simp [rotationdash_dcoeff, h2, h3, h4]
  rw [hodd, heven]
  ring

/-- C9: for every `FilamentRotation`, every dof vector and every quadrature
point set, the angle profile is linear in the dofs: `alpha(quadpoints)`
equals `rotation_dcoeff(quadpoints, order)` applied to the dof vector and
`alphadash(quadpoints)` equals `rotationdash_dcoeff(quadpoints, order)`
applied to it; in particular, at the constructor quadrature points the
precomputed matrices `jac` and `jacdash` used by `dalpha_by_dcoeff_vjp` and
`dalphadash_by_dcoeff_vjp` are the exact Jacobians of `alpha` and
`alphadash`. -/
theorem filament_rotation_linear (sinf cosf : ℚ → ℚ) (twoPi : ℚ)
    (f : FilamentRotation) (qp : ℕ → ℚ) :
    f.alpha sinf cosf twoPi qp =
      matVec (2 * f.order + 1)
        (rotation_dcoeff sinf cosf twoPi qp f.order) f.dofs ∧
    f.alphadash sinf cosf twoPi qp =
      matVec (2 * f.order + 1)
        (rotationdash_dcoeff sinf cosf twoPi qp f.order) f.dofs ∧
    f.alpha sinf cosf twoPi f.quadpoints =
      matVec (2 * f.order + 1) (f.jacMat sinf cosf twoPi) f.dofs ∧
    f.alphadash sinf cosf twoPi f.quadpoints =
      matVec (2 * f.order + 1) (f.jacdashMat sinf cosf twoPi) f.dofs := by
  refine ⟨funext fun i => ?_, funext fun i => ?_,
    funext fun i => ?_, funext fun i => ?_⟩
  · exact jaxrotation_linear sinf cosf twoPi f.dofs qp f.order i
  · exact jaxrotationdash_linear sinf cosf twoPi f.dofs qp f.order i
  · exact jaxrotation_linear sinf cosf twoPi f.dofs f.quadpoints f.order i
  · exact jaxrotationdash_linear sinf cosf twoPi f.dofs f.quadpoints f.order i

/-- Three-component vector of scalars (one row of an `(n, 3)` array). -/
abbrev Vec3 := ℚ × ℚ × ℚ

/-- Dot product of two 3-vectors. -/
def dot3 (a b : Vec3) : ℚ := a.1 * b.1 + a.2.1 * b.2.1 + a.2.2 * b.2.2

/-- Scalar multiple of a 3-vector. -/
def smul3 (k : ℚ) (a : Vec3) : Vec3 := (k * a.1, k * a.2.1, k * a.2.2)

/-- Component-wise sum of two 3-vectors. -/
def add3 (a b : Vec3) : Vec3 := (a.1 + b.1, a.2.1 + b.2.1, a.2.2 + b.2.2)

/-- Division of a 3-vector by a scalar. -/
def div3 (a : Vec3) (k : ℚ) : Vec3 := (a.1 / k, a.2.1 / k, a.2.2 / k)

/-- Vector-valued Derivative map keyed by node identity, each entry a dense
gradient vector modelled as an index function.  Modelled from the spec: the
class `Derivative` of `simsopt/_core/derivative.py` is not among the
analyzed sources; accumulation sums entries key-wise with missing keys
zero-initialized, so a map is a total function defaulting to zero. -/
abbrev DerivG := Nat → ℕ → ℚ

/-- Key-wise sum of two vector-valued Derivative maps. -/
def DerivG.add (d1 d2 : DerivG) : DerivG := fun n k => d1 n k + d2 n k

/-- Empty Derivative map `Derivative({})`: every key reads as zero. -/
def DerivG.empty : DerivG := fun _ _ => 0

lemma DerivG.add_empty (d : DerivG) : DerivG.add d DerivG.empty = d :=
  funext fun n => funext fun k => add_zero (d n k)

/-- Pointwise residual and cotangent `dJdB` computed by `SquaredFlux.dJ`
(`fluxobjective.py` lines 42-53): with `absn = |n_i|` and
`unitn = n_i / absn`, the residual is `B_i . unitn - target_i` when a
target is given and `B_i . unitn` otherwise, and
`dJdB_i = (residual * unitn * absn) / N` where `N = absn.size` is the total
number of quadrature points.  Arrays are flattened to index functions; the
Euclidean norm is abstracted as the parameter `norm3`. -/
def squaredFlux_dJdB (norm3 : Vec3 → ℚ) (normals Bcoil : ℕ → Vec3)
    (target : Option (ℕ → ℚ)) (N : ℕ) : ℕ → Vec3 :=
  fun i =>
    let absn := norm3 (normals i)
    let unitn := smul3 (1 / absn) (normals i)
    let Bcoil_n := dot3 (Bcoil i) unitn
    let B_n := match target with
      | some t => Bcoil_n - t i
      | none => Bcoil_n
    div3 (smul3 absn (smul3 B_n unitn)) (N : ℚ)

/-- `SquaredFlux.dJ` (`fluxobjective.py` line 54): returns
`field.B_vjp(dJdB)` applied to the cotangent above.  The field kernel
adjoint `B_vjp` is the out-of-scope collaborator and is abstracted as the
parameter `Bvjp`; `Bcoil` is the field evaluated at the surface quadrature
points (the constructor sets the field evaluation points to
`surface.gamma()`). -/
def squaredFlux_dJ (Bvjp : (ℕ → Vec3) → DerivG) (norm3 : Vec3 → ℚ)
    (normals Bcoil : ℕ → Vec3) (target : Option (ℕ → ℚ)) (N : ℕ) : DerivG :=
  Bvjp (squaredFlux_dJdB norm3 normals Bcoil target N)

/-- Cotangent written the way claim C1 and the spec state it: the pointwise
residual `(B . unit-normal - target)` with the target treated as zero when
none was given, times `unit-normal`, times the normal magnitude, divided by
the total number of quadrature points `N`.  This definition follows the
words of the spec, to be compared with the source-derived
`squaredFlux_dJdB`. -/
def dJ_cotangent_spec (norm3 : Vec3 → ℚ) (normals Bcoil : ℕ → Vec3)
    (target : Option (ℕ → ℚ)) (N : ℕ) : ℕ → Vec3 :=
  fun i =>
    let unitn := smul3 (1 / norm3 (normals i)) (normals i)
    let targ := match target with
      | some t => t i
      | none => 0
    smul3 ((dot3 (Bcoil i) unitn - targ) * norm3 (normals i) / (N : ℚ)) unitn

lemma squaredFlux_dJdB_eq_spec (norm3 : Vec3 → ℚ) (normals Bcoil : ℕ → Vec3)
    (target : Option (ℕ → ℚ)) (N : ℕ) :
    squaredFlux_dJdB norm3 normals Bcoil target N =
      dJ_cotangent_spec norm3 normals Bcoil target N := by
  funext i
  cases target with
  | none =>
    simp only [squaredFlux_dJdB, dJ_cotangent_spec, smul3, div3, dot3,
      Prod.mk.injEq]
    refine ⟨?_, ?_, ?_⟩ <;> ring
  | some t =>
    simp only [squaredFlux_dJdB, dJ_cotangent_spec, smul3, div3, dot3,
      Prod.mk.injEq]
    refine ⟨?_, ?_, ?_⟩ <;> ring

/-- C1: for every `SquaredFlux` whose field is evaluated at the surface
quadrature points, `dJ()` computes the pointwise residual
`(B . unit-normal - target)` with the target treated as zero when none was
given, forms the field-space cotangent `residual * unit-normal * |n| / N`
with `N` the total number of quadrature points, and returns exactly
`field.B_vjp` applied to that cotangent. -/
theorem squared_flux_dJ_spec (Bvjp : (ℕ → Vec3) → DerivG) (norm3 : Vec3 → ℚ)
    (normals Bcoil : ℕ → Vec3) (target : Option (ℕ → ℚ)) (N : ℕ) :
    squaredFlux_dJ Bvjp norm3 normals Bcoil target N =
      Bvjp (dJ_cotangent_spec norm3 normals Bcoil target N) :=
  congrArg Bvjp (squaredFlux_dJdB_eq_spec norm3 normals Bcoil target N)

/-- Cotangent vector over quadrature points for gamma-like quantities. -/
abbrev CotV := ℕ → Vec3

/-- Cotangent vector over quadrature points for angle-like quantities. -/
abbrev CotS := ℕ → ℚ

/-- Pointwise sum of two gamma-like cotangents. -/
def CotV.add (a b : CotV) : CotV := fun i => add3 (a i) (b i)

/-- Scalar multiple of a gamma-like cotangent (`self.dn * v`). -/
def CotV.smul (k : ℚ) (a : CotV) : CotV := fun i => smul3 k (a i)

/-- Zero cotangent, `np.zeros_like(v)`. -/
def CotV.zero : CotV := fun _ => (0, 0, 0)

/-- Interface of a rotation node as used by `CurveShiftedRotated`
(`multifilament.py`): angle profile, its parameter derivative, and the two
coefficient VJP maps. -/
structure RotationModel where
  alpha : (ℕ → ℚ) → CotS
  alphadash : (ℕ → ℚ) → CotS
  dalpha_by_dcoeff_vjp : (ℕ → ℚ) → CotS → DerivG
  dalphadash_by_dcoeff_vjp : (ℕ → ℚ) → CotS → DerivG

/-- `ZeroRotation` (`multifilament.py` lines 109-124): `alpha` and
`alphadash` return the stored `np.zeros(quadpoints.size)` array (the
constant-zero profile), and both coefficient VJPs return the empty
Derivative map `Derivative({})`. -/
def zeroRotation (_quadpoints : ℕ → ℚ) : RotationModel where
  alpha := fun _ _ => 0
  alphadash := fun _ _ => 0
  dalpha_by_dcoeff_vjp := fun _ _ => DerivG.empty
  dalphadash_by_dcoeff_vjp := fun _ _ => DerivG.empty

/-- Base curve as consumed by `CurveShiftedRotated`: quadrature points,
geometry getters and their coefficient VJP operators, all abstract. -/
structure CurveModel where
  quadpoints : ℕ → ℚ
  gamma : ℕ → Vec3
  gammadash : ℕ → Vec3
  gammadashdash : ℕ → Vec3
  dgamma_by_dcoeff_vjp : CotV → DerivG
  dgammadash_by_dcoeff_vjp : CotV → DerivG
  dgammadashdash_by_dcoeff_vjp : CotV → DerivG

/-- Triple of cotangents `(zero, dn*v, db*v)` passed to the centroid-frame
kernels (`multifilament.py` lines 58-60 and 73-77). -/
def csr_frame_cotangents (dn db : ℚ) (v : CotV) : CotV × CotV × CotV :=
  (CotV.zero, CotV.smul dn v, CotV.smul db v)

/-- Signature of the jax-derived adjoint kernels
`rotated_centroid_frame_dcoeff_vjp{0,1}` returning a gamma-like cotangent. -/
abbrev FrameVjpV := (ℕ → Vec3) → (ℕ → Vec3) → CotS → CotV × CotV × CotV → CotV

/-- Signature of `rotated_centroid_frame_dcoeff_vjp2` returning an
angle-like cotangent. -/
abbrev FrameVjpS := (ℕ → Vec3) → (ℕ → Vec3) → CotS → CotV × CotV × CotV → CotS

/-- Signature of `rotated_centroid_frame_dash_dcoeff_vjp{0,1,2}`. -/
abbrev FrameDashVjpV :=
  (ℕ → Vec3) → (ℕ → Vec3) → (ℕ → Vec3) → CotS → CotS → CotV × CotV × CotV → CotV

/-- Signature of `rotated_centroid_frame_dash_dcoeff_vjp{3,4}`. -/
abbrev FrameDashVjpS :=
  (ℕ → Vec3) → (ℕ → Vec3) → (ℕ → Vec3) → CotS → CotS → CotV × CotV × CotV → CotS

/-- Rotation stored by `CurveShiftedRotated.__init__` (`multifilament.py`
lines 31-33): the given rotation, or a fresh `ZeroRotation` on the curve
quadrature points when `None` was passed. -/
def csr_rotation (c_quadpoints : ℕ → ℚ) (rotation : Option RotationModel) :
    RotationModel :=
  rotation.getD (zeroRotation c_quadpoints)

/-- Dependency list built by `CurveShiftedRotated.__init__`
(`multifilament.py` lines 24-27): `[curve]`, extended with the rotation
node only when a rotation was passed. -/
def csr_depends_on (curveId : Nat) (rotationId : Option Nat) : List Nat :=
  match rotationId with
  | none => [curveId]
  | some r => [curveId, r]

/-- `CurveShiftedRotated.dgamma_by_dcoeff_vjp` (`multifilament.py` lines
53-63): push the cotangent through the frame kernels and forward to the
base curve VJPs and the rotation VJP, accumulating the Derivative maps.
The jax-derived kernels are abstracted as parameters. -/
def csr_dgamma_by_dcoeff_vjp (fvjp0 fvjp1 : FrameVjpV) (fvjp2 : FrameVjpS)
    (c : CurveModel) (dn db : ℚ) (rotation : Option RotationModel)
    (v : CotV) : DerivG :=
  let rot := csr_rotation c.quadpoints rotation
  let g := c.gamma
  let gd := c.gammadash
  let a := rot.alpha c.quadpoints
  let vg := fvjp0 g gd a (csr_frame_cotangents dn db v)
  let vgd := fvjp1 g gd a (csr_frame_cotangents dn db v)
  let va := fvjp2 g gd a (csr_frame_cotangents dn db v)
  DerivG.add
    (DerivG.add (c.dgamma_by_dcoeff_vjp (CotV.add v vg))
      (c.dgammadash_by_dcoeff_vjp vgd))
    (rot.dalpha_by_dcoeff_vjp c.quadpoints va)

/-- `CurveShiftedRotated.dgammadash_by_dcoeff_vjp` (`multifilament.py`
lines 65-82). -/
def csr_dgammadash_by_dcoeff_vjp (f0 f1 f2 : FrameDashVjpV)
    (f3 f4 : FrameDashVjpS) (c : CurveModel) (dn db : ℚ)
    (rotation : Option RotationModel) (v : CotV) : DerivG :=
  let rot := csr_rotation c.quadpoints rotation
  let g := c.gamma
  let gd := c.gammadash
  let gdd := c.gammadashdash
  let a := rot.alpha c.quadpoints
  let ad := rot.alphadash c.quadpoints
  let vg := f0 g gd gdd a ad (csr_frame_cotangents dn db v)
  let vgd := f1 g gd gdd a ad (csr_frame_cotangents dn db v)
  let vgdd := f2 g gd gdd a ad (csr_frame_cotangents dn db v)
  let va := f3 g gd gdd a ad (csr_frame_cotangents dn db v)
  let vad := f4 g gd gdd a ad (csr_frame_cotangents dn db v)
  DerivG.add
    (DerivG.add
      (DerivG.add
        (DerivG.add (c.dgamma_by_dcoeff_vjp vg)
          (c.dgammadash_by_dcoeff_vjp (CotV.add v vgd)))
        (c.dgammadashdash_by_dcoeff_vjp vgdd))
      (rot.dalpha_by_dcoeff_vjp c.quadpoints va))
    (rot.dalphadash_by_dcoeff_vjp c.quadpoints vad)

/-- C10: a `CurveShiftedRotated` constructed with `rotation = None` uses a
substituted `ZeroRotation` whose `alpha` and `alphadash` are identically
zero and whose coefficient VJPs return the empty Derivative map; hence
`dgamma_by_dcoeff_vjp` and `dgammadash_by_dcoeff_vjp` reduce to the sum of
the base curve VJP terms alone (gradient attributed only to the base curve
coefficients), and the dependency list contains only the base curve. -/
theorem curve_shifted_rotated_none_rotation (fvjp0 fvjp1 : FrameVjpV)
    (fvjp2 : FrameVjpS) (g0 g1 g2 : FrameDashVjpV) (g3 g4 : FrameDashVjpS)
    (c : CurveModel) (dn db : ℚ) (v : CotV) (curveId : Nat) :
    (∀ qp, (csr_rotation c.quadpoints none).alpha qp = fun _ => 0) ∧
    (∀ qp, (csr_rotation c.quadpoints none).alphadash qp = fun _ => 0) ∧
    (∀ qp u, (csr_rotation c.quadpoints none).dalpha_by_dcoeff_vjp qp u =
      DerivG.empty) ∧
    (∀ qp u, (csr_rotation c.quadpoints none).dalphadash_by_dcoeff_vjp qp u =
      DerivG.empty) ∧
    csr_dgamma_by_dcoeff_vjp fvjp0 fvjp1 fvjp2 c dn db none v =
      DerivG.add
        (c.dgamma_by_dcoeff_vjp (CotV.add v
          (fvjp0 c.gamma c.gammadash (fun _ => 0)
            (csr_frame_cotangents dn db v))))
        (c.dgammadash_by_dcoeff_vjp
          (fvjp1 c.gamma c.gammadash (fun _ => 0)
            (csr_frame_cotangents dn db v))) ∧
    csr_dgammadash_by_dcoeff_vjp g0 g1 g2 g3 g4 c dn db none v =
      DerivG.add
        (DerivG.add
          (c.dgamma_by_dcoeff_vjp
            (g0 c.gamma c.gammadash c.gammadashdash (fun _ => 0) (fun _ => 0)
              (csr_frame_cotangents dn db v)))
          (c.dgammadash_by_dcoeff_vjp (CotV.add v
            (g1 c.gamma c.gammadash c.gammadashdash (fun _ => 0) (fun _ => 0)
              (csr_frame_cotangents dn db v)))))
        (c.dgammadashdash_by_dcoeff_vjp
          (g2 c.gamma c.gammadash c.gammadashdash (fun _ => 0) (fun _ => 0)
            (csr_frame_cotangents dn db v))) ∧
    csr_depends_on curveId none = [curveId] := by
  refine ⟨fun qp => rfl, fun qp => rfl, fun qp u => rfl, fun qp u => rfl,
    ?_, ?_, rfl⟩
  · show DerivG.add _ DerivG.empty = _
    rw [DerivG.add_empty]
    rfl
  · show DerivG.add (DerivG.add _ DerivG.empty) DerivG.empty = _
    rw [DerivG.add_empty, DerivG.add_empty]
    rfl

end Simsopt
